import Mathlib

/-!
Shallow embedding of axbench/scripts/make_concept_subset.py and proofs about it.

The script filters a concept-labelled dataset: a JSONL record filter
(_write_filtered_metadata), a pandas parquet row filter (_filter_parquet),
a misc-file mirror (_mirror_misc_files), a per-subdirectory orchestrator
(subset_single_directory) and a main loop over subdirectories (main).

Modelling conventions:
- JSON values are modelled by JVal; JSON numbers are restricted to integers
  (the concept_id contract only involves integers).
- A line of a .jsonl file is modelled by Line: blank (strip() empty),
  record r (json.loads succeeds with value r), or malformed (json.loads
  raises).
- Python exceptions are modelled by the Err enumeration; a function that can
  raise returns the output written so far paired with an optional error.
- A pandas dataframe read from parquet is PFrame: either it lacks a
  concept_id column (noConcept) or it has one (withConcept), each row being
  its concept_id together with the remaining columns (opaque JVal payload).
- A directory is a list of named entries in iteration order; the destination
  state of one directory is DirOut (whether the directory was created, and
  the files written into it, in write order).
-/

namespace AxBench

/-- JSON values as produced by json.loads, with numerics restricted to
integers. -/
inductive JVal where
  | null
  | bool (b : Bool)
  | int (n : Int)
  | str (s : String)
  | arr (xs : List JVal)
  | obj (fields : List (String × JVal))

/-- One physical line of a .jsonl file: blank (whitespace only), a line that
json.loads decodes to r, or a line on which json.loads raises. -/
inductive Line where
  | blank
  | record (r : JVal)
  | malformed

/-- The Python exceptions the script can raise while filtering: json.loads
failure, .get on a non-dict (AttributeError), int() on a non-integer value
(ValueError/TypeError), a missing concept_id column (KeyError), and
pd.read_parquet on a non-parquet file. -/
inductive Err where
  | parseErr
  | attrErr
  | valueErr
  | keyErr
  | readErr
deriving DecidableEq, Repr

/-- Value of a nonempty digit string. -/
def digitsVal (cs : List Char) : Nat :=
  cs.foldl (fun a c => 10 * a + (c.toNat - 48)) 0

/-- Parse a nonempty all-digit character list, as Python int() does after
sign and whitespace stripping. -/
def parseDigits (cs : List Char) : Option Nat :=
  if cs ≠ [] ∧ cs.all Char.isDigit then some (digitsVal cs) else none

/-- Strip leading and trailing whitespace from a character list. -/
def strip_ws (cs : List Char) : List Char :=
  (((cs.dropWhile Char.isWhitespace).reverse).dropWhile Char.isWhitespace).reverse

/-- Python int(s) on a string: optional surrounding whitespace, optional
sign, then digits; anything else raises ValueError (none). Digit-group
underscores are not modelled. -/
def py_str_to_int (s : String) : Option Int :=
  match strip_ws s.toList with
  | '+' :: cs => (parseDigits cs).map (fun n => (n : Int))
  | '-' :: cs => (parseDigits cs).map (fun n => -(n : Int))
  | cs => (parseDigits cs).map (fun n => (n : Int))

/-- Python int(v) on a json.loads value: ints pass through, bools coerce
(int subclass), strings are parsed, everything else raises (none). -/
def py_int : JVal → Option Int
  | .int n => some n
  | .bool b => some (if b then 1 else 0)
  | .str s => py_str_to_int s
  | _ => none

/-- dict.get(key, default) on a decoded JSON object; json.loads keeps the
last of duplicate keys, hence the reverse. -/
def dict_get (fields : List (String × JVal)) (key : String) (dflt : JVal) : JVal :=
  ((fields.reverse).lookup key).getD dflt

/-- int(record.get("concept_id", -1)) from line 19 of the script: raises
AttributeError when the record is not an object, ValueError/TypeError when
the field value cannot be coerced to an integer. -/
def record_concept_id : JVal → Except Err Int
  | .obj fields =>
      match py_int (dict_get fields "concept_id" (.int (-1))) with
      | some n => .ok n
      | none => .error Err.valueErr
  | _ => .error Err.attrErr

/-- Model of _write_filtered_metadata (lines 12-20): stream the source lines, skip
blank lines, decode each remaining line, keep the record when its
concept_id is in keep_ids. Returns the records written to the output file
before the first error (if any), in order, together with that error. -/
def write_filtered_metadata (lines : List Line) (keep_ids : Finset Int) :
    List JVal × Option Err :=
  match lines with
  | [] => ([], none)
  | Line.blank :: rest => write_filtered_metadata rest keep_ids
  | Line.malformed :: _ => ([], some Err.parseErr)
  | Line.record r :: rest =>
      match record_concept_id r with
      | .error e => ([], some e)
      | .ok cid =>
          if cid ∈ keep_ids then
            (r :: (write_filtered_metadata rest keep_ids).1,
             (write_filtered_metadata rest keep_ids).2)
          else write_filtered_metadata rest keep_ids

/-- One dataframe row: its concept_id and the remaining columns (opaque). -/
abbrev Row := Int × JVal

/-- A dataframe read from a parquet file: either the concept_id column is
missing, or every row carries its concept_id. -/
inductive PFrame where
  | noConcept (rows : List JVal)
  | withConcept (rows : List Row)

/-- df["concept_id"].isin(keep_ids) as a boolean mask. -/
def isin_mask (rows : List Row) (keep_ids : Finset Int) : List Bool :=
  rows.map (fun r => decide (r.1 ∈ keep_ids))

/-- df["concept_id"] == -1 as a boolean mask. -/
def neg_mask (rows : List Row) : List Bool :=
  rows.map (fun r => decide (r.1 = -1))

/-- Elementwise disjunction of two masks (mask |= other). -/
def or_mask : List Bool → List Bool → List Bool := List.zipWith or

/-- df.loc[mask]: the rows at the positions where the mask is true, in
order. -/
def loc_mask (rows : List Row) (mask : List Bool) : List Row :=
  (rows.zip mask).filterMap (fun p => if p.2 then some p.1 else none)

/-- Model of _filter_parquet (lines 23-29): raises KeyError when the concept_id
column is absent; otherwise builds the isin mask, widens it with the
concept_id == -1 rows when keep_negative is set and at least one such row
exists, and writes the selected rows. -/
def filter_parquet (df : PFrame) (keep_ids : Finset Int) (keep_negative : Bool) :
    Except Err (List Row) :=
  match df with
  | .noConcept _ => .error Err.keyErr
  | .withConcept rows =>
      let mask0 := isin_mask rows keep_ids
      let mask :=
        if keep_negative && rows.any (fun r => decide (r.1 = -1)) then
          or_mask mask0 (neg_mask rows)
        else mask0
      .ok (loc_mask rows mask)

/-- The simpler variant of _filter_parquet stated by the refinement claim:
when keep_negative is set the concept_id == -1 rows are unioned into the
mask unconditionally, without the (df["concept_id"] == -1).any() guard. -/
def filter_parquet_uncond (df : PFrame) (keep_ids : Finset Int) (keep_negative : Bool) :
    Except Err (List Row) :=
  match df with
  | .noConcept _ => .error Err.keyErr
  | .withConcept rows =>
      let mask0 := isin_mask rows keep_ids
      let mask :=
        if keep_negative then or_mask mask0 (neg_mask rows)
        else mask0
      .ok (loc_mask rows mask)

/-- One directory entry, in iterdir order: a text file whose lines decode
as modelled by Line, a parquet file, any other plain file (opaque bytes),
or a subdirectory. -/
inductive Entry where
  | jfile (lines : List Line)
  | pfile (df : PFrame)
  | bfile (data : String)
  | subdir

/-- A directory: its entries, by name, in iteration order. -/
abbrev Dir := List (String × Entry)

/-- Opening an entry for line-by-line JSON reading: a text file yields its
lines; opening anything else (binary file, directory) fails on the spot,
modelled as a single undecodable line. -/
def as_jsonl : Entry → List Line
  | Entry.jfile ls => ls
  | _ => [Line.malformed]

/-- pd.read_parquet on an entry: succeeds exactly on parquet files. -/
def as_parquet : Entry → Except Err PFrame
  | Entry.pfile df => Except.ok df
  | _ => Except.error Err.readErr

/-- The destination state of one output directory: whether the directory
itself was created (some mkdir ran for it) and the files written into it,
in write order. -/
structure DirOut where
  created : Bool
  entries : List (String × Entry)

/-- item.is_file(): every entry except a subdirectory is a plain file. -/
def is_file : Entry → Bool
  | Entry.subdir => false
  | _ => true

/-- One step of _mirror_misc_files: skip names already handled, skip
non-file entries; otherwise create the destination directory and copy the
file verbatim. -/
def mirror_step (handled : List String) (d : DirOut) (it : String × Entry) : DirOut :=
  if it.1 ∈ handled then d
  else if is_file it.2 then ⟨true, d.entries ++ [it]⟩ else d

/-- Model of _mirror_misc_files (lines 32-38): iterate the source directory and copy
every file whose name was not handled by the two filters. -/
def mirror_misc_files (src : Dir) (handled : List String) (d : DirOut) : DirOut :=
  src.foldl (mirror_step handled) d

/-- Lines 50-54 of subset_single_directory: if train_data.parquet exists,
filter it (mkdir runs before the read, so the destination directory is
created even when the filter then fails), mark it handled, then mirror the
remaining files. d and handled carry the effect of the metadata step. -/
def process_train_parquet (g : Dir) (keep_ids : Finset Int) (keep_negative : Bool)
    (d : DirOut) (handled : List String) : DirOut × Option Err :=
  match List.lookup "train_data.parquet" g with
  | some e =>
      match as_parquet e with
      | Except.error er => (⟨true, d.entries⟩, some er)
      | Except.ok df =>
          match filter_parquet df keep_ids keep_negative with
          | Except.error er => (⟨true, d.entries⟩, some er)
          | Except.ok rows =>
              (mirror_misc_files g ("train_data.parquet" :: handled)
                ⟨true, d.entries ++
                  [("train_data.parquet", Entry.pfile (PFrame.withConcept rows))]⟩,
               none)
  | none => (mirror_misc_files g handled d, none)

/-- Lines 42-54 of subset_single_directory, for an existing generate
directory: filter metadata.jsonl when present (on failure the partially
written output file remains), then the training parquet, then mirror. -/
def process_generate (g : Dir) (keep_ids : Finset Int) (keep_negative : Bool) :
    DirOut × Option Err :=
  match List.lookup "metadata.jsonl" g with
  | some e =>
      match write_filtered_metadata (as_jsonl e) keep_ids with
      | (recs, some er) =>
          (⟨true, [("metadata.jsonl", Entry.jfile (recs.map Line.record))]⟩, some er)
      | (recs, none) =>
          process_train_parquet g keep_ids keep_negative
            ⟨true, [("metadata.jsonl", Entry.jfile (recs.map Line.record))]⟩
            ["metadata.jsonl"]
  | none => process_train_parquet g keep_ids keep_negative ⟨false, []⟩ []

/-- Lines 56-64 of subset_single_directory, for an existing inference
directory: filter latent_eval_data.parquet when present, with
keep_negative passed as False (line 62), then mirror the rest. -/
def process_inference (i : Dir) (keep_ids : Finset Int) : DirOut × Option Err :=
  match List.lookup "latent_eval_data.parquet" i with
  | some e =>
      match as_parquet e with
      | Except.error er => (⟨true, []⟩, some er)
      | Except.ok df =>
          match filter_parquet df keep_ids false with
          | Except.error er => (⟨true, []⟩, some er)
          | Except.ok rows =>
              (mirror_misc_files i ["latent_eval_data.parquet"]
                ⟨true, [("latent_eval_data.parquet",
                         Entry.pfile (PFrame.withConcept rows))]⟩,
               none)
  | none => (mirror_misc_files i [] ⟨false, []⟩, none)

/-- A source subdirectory: its generate and inference sub-locations, each
present (with contents) or absent. -/
structure SrcBase where
  generate : Option Dir
  inference : Option Dir

/-- The destination state for one subdirectory: the generate and inference
output directories. -/
structure DstBase where
  generate : DirOut
  inference : DirOut

/-- The inference half of subset_single_directory (lines 56-64), threading
the already computed generate output through. -/
def inference_part (iOpt : Option Dir) (keep_ids : Finset Int) (gOut : DirOut) :
    DstBase × Option Err :=
  match iOpt with
  | some i =>
      match process_inference i keep_ids with
      | (d, e) => (⟨gOut, d⟩, e)
  | none => (⟨gOut, ⟨false, []⟩⟩, none)

/-- subset_single_directory (lines 41-64): process the generate
sub-location when it exists (an error there propagates immediately, leaving
the inference destination untouched), then the inference sub-location. -/
def subset_single_directory (src : SrcBase) (keep_ids : Finset Int)
    (keep_negative : Bool) : DstBase × Option Err :=
  match src.generate with
  | some g =>
      match process_generate g keep_ids keep_negative with
      | (d, some e) => (⟨d, ⟨false, []⟩⟩, some e)
      | (d, none) => inference_part src.inference keep_ids d
  | none => inference_part src.inference keep_ids ⟨false, []⟩

/-- Top-level failures of main: the FileNotFoundError of line 90, naming
the missing source path, or a filtering error propagating out of
subset_single_directory. -/
inductive MainErr where
  | sourceNotFound (name : String)
  | filterErr (e : Err)

/-- The loop of main (lines 87-93) over an abstract source filesystem
mapping each subdirectory name to its contents when it exists: on a missing
source the run aborts before writing anything for that name; on a filter
error the partial writes of the failing subdirectory remain; otherwise the
subdirectory output is recorded and the loop continues. Returns the
destination trees written, in order, with the error that stopped the run. -/
def run_subdirs (fs : String → Option SrcBase) (keep_ids : Finset Int)
    (keep_negative : Bool) : List String → List (String × DstBase) × Option MainErr
  | [] => ([], none)
  | name :: rest =>
      match fs name with
      | none => ([], some (MainErr.sourceNotFound name))
      | some src =>
          match subset_single_directory src keep_ids keep_negative with
          | (dst, some e) => ([(name, dst)], some (MainErr.filterErr e))
          | (dst, none) =>
              match run_subdirs fs keep_ids keep_negative rest with
              | (outs, err) => ((name, dst) :: outs, err)

/-- The command-line arguments main consumes. -/
structure Args where
  subdirs : List String
  concept_ids : List Int
  drop_negative : Bool

/-- main (lines 82-93): keep_ids = set(concept_ids),
keep_negative = not drop_negative, then the loop over subdirs. -/
def main_run (fs : String → Option SrcBase) (a : Args) :
    List (String × DstBase) × Option MainErr :=
  run_subdirs fs a.concept_ids.toFinset (!a.drop_negative) a.subdirs

/-- The destination tree as a store mapping a path to the content of the
file at that path, when one was written. -/
def Store := String → Option Entry

/-- Writing one file into the destination tree (open("w"), to_parquet,
copy2 all overwrite an existing file at the path). -/
def write_file (s : Store) (w : String × Entry) : Store :=
  fun p => if p = w.1 then some w.2 else s p

/-- Applying a run's file writes to a destination tree, in order. -/
def apply_writes (s : Store) (ws : List (String × Entry)) : Store :=
  ws.foldl write_file s

/-- The file writes of one output directory, as root-relative paths. -/
def dir_writes (root : String) (d : DirOut) : List (String × Entry) :=
  d.entries.map (fun p => (root ++ "/" ++ p.1, p.2))

/-- The file writes of one subdirectory's destination state. -/
def base_writes (name : String) (d : DstBase) : List (String × Entry) :=
  dir_writes (name ++ "/generate") d.generate ++
  dir_writes (name ++ "/inference") d.inference

/-- All file writes of one run, in order. -/
def run_writes (outs : List (String × DstBase)) : List (String × Entry) :=
  (outs.map (fun p => base_writes p.1 p.2)).flatten

/-! ## Lemmas about the columnar filter -/

theorem loc_mask_map (rows : List Row) (f : Row → Bool) :
    loc_mask rows (rows.map f) = rows.filter f := by
  induction rows with
  | nil => rfl
  | cons r rs ih =>
      cases h : f r <;>
        simp [loc_mask, List.filter_cons, h, ← ih, List.zip_cons_cons,
          List.filterMap_cons]

theorem or_mask_map {α : Type} (l : List α) (f g : α → Bool) :
    or_mask (l.map f) (l.map g) = l.map (fun x => f x || g x) := by
  induction l with
  | nil => rfl
  | cons a l ih =>
      simp only [List.map_cons, or_mask, List.zipWith_cons_cons] at ih ⊢
      rw [ih]

/-- The mask machinery of _filter_parquet amounts to one stable filter:
a row survives iff its concept_id is in the keep-set, or keep_negative is
set and its concept_id is -1. -/
theorem filter_parquet_withConcept (rows : List Row) (K : Finset Int) (kn : Bool) :
    filter_parquet (PFrame.withConcept rows) K kn =
      Except.ok (rows.filter
        (fun r => decide (r.1 ∈ K) || (kn && decide (r.1 = -1)))) := by
  cases kn with
  | false =>
      simp only [filter_parquet, Bool.false_and, isin_mask]
      rw [if_neg Bool.false_ne_true, loc_mask_map]
      exact congrArg _ (List.filter_congr (by intro a _; simp))
  | true =>
      cases hany : rows.any (fun r => decide (r.1 = -1)) with
      | true =>
          simp only [filter_parquet, hany, Bool.true_and, isin_mask, neg_mask]
          rw [if_pos trivial, or_mask_map, loc_mask_map]
      | false =>
          simp only [filter_parquet, hany, Bool.true_and, isin_mask]
          rw [if_neg Bool.false_ne_true, loc_mask_map]
          refine congrArg _ (List.filter_congr ?_)
          intro a ha
          have h1 : ¬ a.1 = -1 := by
            have := List.any_eq_false.mp hany a ha
            simpa using this
          simp [h1]

/-- The unconditional variant is the same stable filter. -/
theorem filter_parquet_uncond_withConcept (rows : List Row) (K : Finset Int)
    (kn : Bool) :
    filter_parquet_uncond (PFrame.withConcept rows) K kn =
      Except.ok (rows.filter
        (fun r => decide (r.1 ∈ K) || (kn && decide (r.1 = -1)))) := by
  cases kn with
  | false =>
      simp only [filter_parquet_uncond, isin_mask]
      rw [if_neg Bool.false_ne_true, loc_mask_map]
      exact congrArg _ (List.filter_congr (by intro a _; simp))
  | true =>
      simp only [filter_parquet_uncond, isin_mask, neg_mask, Bool.true_and]
      rw [if_pos trivial, or_mask_map, loc_mask_map]

/-! ## Claim theorems about the columnar filter -/

/-- C2: for every source table with a concept_id column, keep-set and
keep_negative flag, _filter_parquet outputs exactly the rows whose
concept_id is in the keep-set, union, when keep_negative is set and the
table has at least one concept_id == -1 row, the concept_id == -1 rows;
the equality with List.filter of the source rows states the stable order,
the absence of duplication, and that each kept row (all its columns)
passes through unchanged. -/
theorem filter_parquet_exact (rows : List Row) (K : Finset Int) (kn : Bool) :
    filter_parquet (PFrame.withConcept rows) K kn =
      Except.ok (rows.filter
        (fun r => decide (r.1 ∈ K) ||
          (kn && rows.any (fun q => decide (q.1 = -1)) && decide (r.1 = -1)))) := by
  rw [filter_parquet_withConcept]
  refine congrArg _ (List.filter_congr ?_)
  intro a ha
  cases hany : rows.any (fun q => decide (q.1 = -1)) with
  | true => simp
  | false =>
      have h1 : ¬ a.1 = -1 := by
        have := List.any_eq_false.mp hany a ha
        simpa using this
      simp [h1]

/-- C7: for every keep-set and flag value, _filter_parquet fails with a
KeyError whenever the source table lacks a concept_id column. -/
theorem filter_parquet_missing_column (rows : List JVal) (K : Finset Int)
    (kn : Bool) :
    filter_parquet (PFrame.noConcept rows) K kn = Except.error Err.keyErr := rfl

/-- C10: _filter_parquet agrees with the simpler variant that unions the
concept_id == -1 rows unconditionally when keep_negative is set: the
(df["concept_id"] == -1).any() guard never changes the result. -/
theorem filter_parquet_guard_redundant (df : PFrame) (K : Finset Int) (kn : Bool) :
    filter_parquet df K kn = filter_parquet_uncond df K kn := by
  cases df with
  | noConcept rows => rfl
  | withConcept rows =>
      rw [filter_parquet_withConcept, filter_parquet_uncond_withConcept]

/-! ## Claim theorems about the record filter -/

/-- C1: when the record filter completes without raising, it writes exactly
those records of the source whose concept_id (parsed as an integer, -1 when
the field is absent) is in the keep-set: each appears exactly once, with
the same fields and values, in the source's relative order; no record not
in the source appears, and blank lines are skipped and never copied. The
equality with List.filterMap over the source lines states all of this. -/
theorem write_filtered_metadata_exact (lines : List Line) (K : Finset Int)
    (herr : (write_filtered_metadata lines K).2 = none) :
    (write_filtered_metadata lines K).1 =
      lines.filterMap (fun l =>
        match l with
        | Line.record r =>
            match record_concept_id r with
            | Except.ok cid => if cid ∈ K then some r else none
            | Except.error _ => none
        | _ => none) := by
  induction lines with
  | nil => rfl
  | cons l rest ih =>
      cases l with
      | blank =>
          simp only [write_filtered_metadata, List.filterMap_cons]
          exact ih herr
      | malformed => simp [write_filtered_metadata] at herr
      | record r =>
          cases hc : record_concept_id r with
          | error e =>
              rw [show write_filtered_metadata (Line.record r :: rest) K =
                    ([], some e) by simp [write_filtered_metadata, hc]] at herr
              exact absurd herr (by simp)
          | ok cid =>
              by_cases hk : cid ∈ K
              · rw [show write_filtered_metadata (Line.record r :: rest) K =
                      (r :: (write_filtered_metadata rest K).1,
                       (write_filtered_metadata rest K).2) by
                    simp [write_filtered_metadata, hc, hk]] at herr ⊢
                simp only [List.filterMap_cons, hc, hk, if_pos]
                rw [ih herr]
              · rw [show write_filtered_metadata (Line.record r :: rest) K =
                      write_filtered_metadata rest K by
                    simp [write_filtered_metadata, hc, hk]] at herr ⊢
                simp only [List.filterMap_cons, hc, hk, if_neg]
                exact ih herr

/-- C1 witness: a concrete file with a blank line, records with concept_id
1 and 2, and a record without the field (treated as -1), filtered against
keep-set containing 1 and -1. -/
theorem write_filtered_metadata_exact_witness :
    (write_filtered_metadata
      [Line.blank,
       Line.record (JVal.obj [("concept_id", JVal.int 1), ("x", JVal.str "a")]),
       Line.record (JVal.obj [("concept_id", JVal.int 2)]),
       Line.record (JVal.obj [("y", JVal.null)])]
      ({1, -1} : Finset Int)).1 =
      [Line.blank,
       Line.record (JVal.obj [("concept_id", JVal.int 1), ("x", JVal.str "a")]),
       Line.record (JVal.obj [("concept_id", JVal.int 2)]),
       Line.record (JVal.obj [("y", JVal.null)])].filterMap (fun l =>
        match l with
        | Line.record r =>
            match record_concept_id r with
            | Except.ok cid => if cid ∈ ({1, -1} : Finset Int) then some r else none
            | Except.error _ => none
        | _ => none) :=
  write_filtered_metadata_exact _ _ (by rfl)

/-- C6: a line on which decoding raises aborts the whole operation on the
file: the output holds exactly what the error-free prefix produced, the
error propagates, and no later line is processed (no skip-and-continue). -/
theorem write_filtered_metadata_parse_aborts (pre post : List Line)
    (K : Finset Int) (hpre : (write_filtered_metadata pre K).2 = none) :
    write_filtered_metadata (pre ++ Line.malformed :: post) K =
      ((write_filtered_metadata pre K).1, some Err.parseErr) := by
  induction pre with
  | nil => rfl
  | cons l pre ih =>
      cases l with
      | blank =>
          simp only [List.cons_append, write_filtered_metadata]
          exact ih hpre
      | malformed => simp [write_filtered_metadata] at hpre
      | record r =>
          cases hc : record_concept_id r with
          | error e =>
              rw [show write_filtered_metadata (Line.record r :: pre) K =
                    ([], some e) by simp [write_filtered_metadata, hc]] at hpre
              exact absurd hpre (by simp)
          | ok cid =>
              by_cases hk : cid ∈ K
              · rw [show write_filtered_metadata (Line.record r :: pre) K =
                      (r :: (write_filtered_metadata pre K).1,
                       (write_filtered_metadata pre K).2) by
                    simp [write_filtered_metadata, hc, hk]] at hpre ⊢
                simp only [List.cons_append]
                rw [show write_filtered_metadata
                      (Line.record r :: (pre ++ Line.malformed :: post)) K =
                      (r :: (write_filtered_metadata
                              (pre ++ Line.malformed :: post) K).1,
                       (write_filtered_metadata
                              (pre ++ Line.malformed :: post) K).2) by
                    simp [write_filtered_metadata, hc, hk]]
                rw [ih hpre]
              · rw [show write_filtered_metadata (Line.record r :: pre) K =
                      write_filtered_metadata pre K by
                    simp [write_filtered_metadata, hc, hk]] at hpre ⊢
                simp only [List.cons_append]
                rw [show write_filtered_metadata
                      (Line.record r :: (pre ++ Line.malformed :: post)) K =
                      write_filtered_metadata (pre ++ Line.malformed :: post) K by
                    simp [write_filtered_metadata, hc, hk]]
                exact ih hpre

/-- C6 witness: a kept record, then an undecodable line, then a further
record; the kept record is written, the error propagates, the last record
is never processed. -/
theorem write_filtered_metadata_parse_aborts_witness :
    write_filtered_metadata
      ([Line.record (JVal.obj [("concept_id", JVal.int 1)])] ++
        Line.malformed :: [Line.record (JVal.obj [("concept_id", JVal.int 1)])])
      ({1} : Finset Int) =
      ((write_filtered_metadata
          [Line.record (JVal.obj [("concept_id", JVal.int 1)])]
          ({1} : Finset Int)).1,
       some Err.parseErr) :=
  write_filtered_metadata_parse_aborts _ _ _ (by rfl)

/-- C4 counterexample: a record whose concept_id field is present but not
interpretable as an integer makes the filter raise; the claim instead says
such a record is treated as concept_id -1 and dropped without failing,
i.e. the run on this one-line file would end error-free. -/
theorem record_filter_bad_field_raises :
    (write_filtered_metadata
      [Line.record (JVal.obj [("concept_id", JVal.str "oops")])]
      ({0} : Finset Int)).2 = some Err.valueErr ∧
    (write_filtered_metadata
      [Line.record (JVal.obj [("concept_id", JVal.str "oops")])]
      ({0} : Finset Int)).2 ≠ none := by
  exact ⟨rfl, by decide⟩

/-- C4 (amended): the record filter treats concept_id as -1 only when the
field is absent (then keeps or drops the record by membership of -1 in the
keep-set); when the field is present but its value is not interpretable as
an integer, the filter raises and aborts the file, rather than dropping
the record. -/
theorem record_concept_id_default_absent_only
    (fields : List (String × JVal)) (rest : List Line) (K : Finset Int) :
    ((fields.reverse.lookup "concept_id" = none →
      write_filtered_metadata (Line.record (JVal.obj fields) :: rest) K =
        if (-1 : Int) ∈ K then
          ((JVal.obj fields) :: (write_filtered_metadata rest K).1,
           (write_filtered_metadata rest K).2)
        else write_filtered_metadata rest K) ∧
     (∀ v, fields.reverse.lookup "concept_id" = some v → py_int v = none →
      write_filtered_metadata (Line.record (JVal.obj fields) :: rest) K =
        ([], some Err.valueErr))) := by
  constructor
  · intro h
    simp [write_filtered_metadata, record_concept_id, dict_get, h, py_int]
  · intro v hv hpy
    simp [write_filtered_metadata, record_concept_id, dict_get, hv, hpy]

/-- C4 amended witness: a record without the field is dropped when -1 is
not kept; a record with a non-integer field value raises. -/
theorem record_concept_id_default_absent_only_witness :
    write_filtered_metadata [Line.record (JVal.obj [])] ({0} : Finset Int) =
      ([], none) ∧
    write_filtered_metadata
      [Line.record (JVal.obj [("concept_id", JVal.str "x")])]
      ({0} : Finset Int) = ([], some Err.valueErr) := by
  constructor
  · have h := (record_concept_id_default_absent_only [] [] ({0} : Finset Int)).1 rfl
    rw [h, if_neg (by decide)]
    rfl
  · exact (record_concept_id_default_absent_only
      [("concept_id", JVal.str "x")] [] ({0} : Finset Int)).2
      (JVal.str "x") rfl rfl

/-! ## Lemmas about the mirror and the orchestrator -/

/-- One mirror step only appends the source entry itself, and only when
its name was not handled. -/
theorem mirror_step_mem (handled : List String) (d : DirOut)
    (it : String × Entry) :
    ∀ p ∈ (mirror_step handled d it).entries,
      p ∈ d.entries ∨ (p = it ∧ p.1 ∉ handled) := by
  intro p hp
  by_cases hh : it.1 ∈ handled
  · rw [mirror_step, if_pos hh] at hp
    exact Or.inl hp
  · rw [mirror_step, if_neg hh] at hp
    by_cases hf : is_file it.2 = true
    · rw [if_pos hf] at hp
      rcases List.mem_append.mp hp with h1 | h1
      · exact Or.inl h1
      · have hpe : p = it := by simpa using h1
        exact Or.inr ⟨hpe, by rw [hpe]; exact hh⟩
    · rw [if_neg hf] at hp
      exact Or.inl hp

/-- Every entry of a mirrored directory is either pre-existing destination
state or a copy of a source entry whose name was not handled. -/
theorem mirror_misc_files_mem (src : Dir) (handled : List String) :
    ∀ (d : DirOut), ∀ p ∈ (mirror_misc_files src handled d).entries,
      p ∈ d.entries ∨ (p ∈ src ∧ p.1 ∉ handled) := by
  induction src with
  | nil => intro d p hp; exact Or.inl hp
  | cons it src ih =>
      intro d p hp
      have hp' : p ∈ (mirror_misc_files src handled
          (mirror_step handled d it)).entries := hp
      rcases ih (mirror_step handled d it) p hp' with h | h
      · rcases mirror_step_mem handled d it p h with h1 | h1
        · exact Or.inl h1
        · exact Or.inr ⟨h1.1 ▸ List.mem_cons_self it src, h1.2⟩
      · exact Or.inr ⟨List.mem_cons_of_mem _ h.1, h.2⟩

theorem lookup_eq_none_forall {β : Type} (l : List (String × β)) (a : String)
    (h : List.lookup a l = none) : ∀ p ∈ l, p.1 ≠ a := by
  induction l with
  | nil => simp
  | cons q l ih =>
      intro p hp
      rw [List.lookup] at h
      cases hq : a == q.1 with
      | true => rw [hq] at h; exact absurd h (by simp)
      | false =>
          rw [hq] at h
          rcases List.mem_cons.mp hp with h1 | h1
          · subst h1
            intro he
            rw [he] at hq
            simp at hq
          · exact ih h p h1

/-- Any latent_eval_data.parquet written by the inference half was produced
by the columnar filter with keep_negative false, so with a non-negative
keep-set its rows never carry concept_id -1. -/
theorem process_inference_latent (i : Dir) (K : Finset Int) (rows : List Row)
    (hK : ∀ k ∈ K, 0 ≤ k)
    (hmem : ("latent_eval_data.parquet",
        Entry.pfile (PFrame.withConcept rows)) ∈
      (process_inference i K).1.entries) :
    ∀ r ∈ rows, r.1 ≠ -1 := by
  intro r hr
  cases hl : List.lookup "latent_eval_data.parquet" i with
  | none =>
      rw [show process_inference i K =
            (mirror_misc_files i [] ⟨false, []⟩, none) by
          simp [process_inference, hl]] at hmem
      rcases mirror_misc_files_mem i [] ⟨false, []⟩ _ hmem with h | h
      · simp at h
      · exact absurd rfl (lookup_eq_none_forall i _ hl _ h.1)
  | some e =>
      cases hp : as_parquet e with
      | error er =>
          rw [show process_inference i K = (⟨true, []⟩, some er) by
              simp [process_inference, hl, hp]] at hmem
          simp at hmem
      | ok df =>
          cases df with
          | noConcept rs =>
              rw [show process_inference i K = (⟨true, []⟩, some Err.keyErr) by
                  simp [process_inference, hl, hp, filter_parquet]] at hmem
              simp at hmem
          | withConcept rs =>
              rw [show process_inference i K =
                    (mirror_misc_files i ["latent_eval_data.parquet"]
                      ⟨true, [("latent_eval_data.parquet",
                        Entry.pfile (PFrame.withConcept (rs.filter
                          (fun q => decide (q.1 ∈ K) ||
                            (false && decide (q.1 = -1))))))]⟩,
                     none) by
                  simp [process_inference, hl, hp, filter_parquet_withConcept]] at hmem
              rcases mirror_misc_files_mem i _ _ _ hmem with h | h
              · have hrows : rows = rs.filter
                    (fun q => decide (q.1 ∈ K) || (false && decide (q.1 = -1))) := by
                  simpa using h
                rw [hrows] at hr
                have hrK : r.1 ∈ K := by
                  have := List.of_mem_filter hr
                  simpa using this
                intro hneg
                have h0 : (0 : Int) ≤ r.1 := hK r.1 hrK
                rw [hneg] at h0
                exact absurd h0 (by norm_num)
              · exact absurd (List.mem_singleton.mpr rfl) h.2

/-! ## Claim theorems about the orchestrator -/

/-- C3: the filtered inference latent_eval_data.parquet never contains a
row with concept_id -1, for any value of the drop-negative flag, when the
keep-set consists of non-negative integers: subset_single_directory passes
keep_negative as False for this file. -/
theorem latent_eval_no_negative (src : SrcBase) (K : Finset Int) (kn : Bool)
    (rows : List Row)
    (hK : ∀ k ∈ K, 0 ≤ k)
    (hmem : ("latent_eval_data.parquet",
        Entry.pfile (PFrame.withConcept rows)) ∈
      (subset_single_directory src K kn).1.inference.entries) :
    ∀ r ∈ rows, r.1 ≠ -1 := by
  rcases src with ⟨gOpt, iOpt⟩
  have hinf : ∀ (d : DirOut),
      ("latent_eval_data.parquet", Entry.pfile (PFrame.withConcept rows)) ∈
        (inference_part iOpt K d).1.inference.entries →
      ∀ r ∈ rows, r.1 ≠ -1 := by
    intro d hm
    cases iOpt with
    | none => simp [inference_part] at hm
    | some i =>
        cases hpi : process_inference i K with
        | mk dOut err =>
            rw [show inference_part (some i) K d = (⟨d, dOut⟩, err) by
                simp [inference_part, hpi]] at hm
            exact process_inference_latent i K rows hK (by rw [hpi]; exact hm)
  cases gOpt with
  | none => exact hinf ⟨false, []⟩ hmem
  | some g =>
      cases hpg : process_generate g K kn with
      | mk d err =>
          cases err with
          | none =>
              rw [show subset_single_directory ⟨some g, iOpt⟩ K kn =
                    inference_part iOpt K d by
                  simp [subset_single_directory, hpg]] at hmem
              exact hinf d hmem
          | some e =>
              rw [show subset_single_directory ⟨some g, iOpt⟩ K kn =
                    (⟨d, ⟨false, []⟩⟩, some e) by
                  simp [subset_single_directory, hpg]] at hmem
              simp at hmem

/-- C3 witness: a source whose inference directory holds a latent table
with rows labelled 0 and -1, filtered with keep-set containing only 0 and
keep_negative true; the written latent table keeps only the 0 row. -/
theorem latent_eval_no_negative_witness :
    ((0 : Int), JVal.null).1 ≠ -1 := by
  have hmem : ("latent_eval_data.parquet",
      Entry.pfile (PFrame.withConcept [((0 : Int), JVal.null)])) ∈
      (subset_single_directory
        ⟨none, some [("latent_eval_data.parquet",
          Entry.pfile (PFrame.withConcept
            [(0, JVal.null), (-1, JVal.bool true)]))]⟩
        ({0} : Finset Int) true).1.inference.entries := by
    show ("latent_eval_data.parquet",
        Entry.pfile (PFrame.withConcept [((0 : Int), JVal.null)])) ∈
      [("latent_eval_data.parquet",
        Entry.pfile (PFrame.withConcept [((0 : Int), JVal.null)]))]
    exact List.mem_singleton.mpr rfl
  exact latent_eval_no_negative _ _ _ _ (by decide) hmem
    ((0 : Int), JVal.null) (List.mem_singleton.mpr rfl)

/-- C9: a missing sub-location is skipped entirely: with generate absent
the run equals the pure inference half started from an uncreated generate
destination (no error from the skip, no generate filtering or mirroring,
no generate destination directory); with inference absent the run equals
the pure generate half with an uncreated inference destination; with both
absent nothing happens at all. -/
theorem missing_sublocation_skipped (iOpt : Option Dir) (g : Dir)
    (K : Finset Int) (kn : Bool) :
    (subset_single_directory ⟨none, iOpt⟩ K kn =
      inference_part iOpt K ⟨false, []⟩) ∧
    ((subset_single_directory ⟨none, iOpt⟩ K kn).1.generate = ⟨false, []⟩) ∧
    (subset_single_directory ⟨some g, none⟩ K kn =
      (⟨(process_generate g K kn).1, ⟨false, []⟩⟩,
       (process_generate g K kn).2)) ∧
    (subset_single_directory ⟨none, none⟩ K kn =
      (⟨⟨false, []⟩, ⟨false, []⟩⟩, none)) := by
  refine ⟨rfl, ?_, ?_, rfl⟩
  · cases iOpt with
    | none => rfl
    | some i =>
        cases hpi : process_inference i K with
        | mk dOut err => simp [subset_single_directory, inference_part, hpi]
  · cases hpg : process_generate g K kn with
    | mk d err =>
        cases err with
        | none => simp [subset_single_directory, inference_part, hpg]
        | some e => simp [subset_single_directory, hpg]

/-! ## Lemmas about the main loop -/

/-- Every subdirectory with recorded output had an existing source. -/
theorem run_subdirs_names (fs : String → Option SrcBase) (K : Finset Int)
    (kn : Bool) :
    ∀ (ds : List String), ∀ p ∈ (run_subdirs fs K kn ds).1, fs p.1 ≠ none := by
  intro ds
  induction ds with
  | nil => simp [run_subdirs]
  | cons name rest ih =>
      intro p hp
      cases hf : fs name with
      | none => simp [run_subdirs, hf] at hp
      | some src =>
          cases hs : subset_single_directory src K kn with
          | mk dst err =>
              cases err with
              | some e =>
                  rw [show run_subdirs fs K kn (name :: rest) =
                        ([(name, dst)], some (MainErr.filterErr e)) by
                      simp [run_subdirs, hf, hs]] at hp
                  have : p = (name, dst) := by simpa using hp
                  rw [this, hf]
                  simp
              | none =>
                  cases hr : run_subdirs fs K kn rest with
                  | mk outs err2 =>
                      rw [show run_subdirs fs K kn (name :: rest) =
                            ((name, dst) :: outs, err2) by
                          simp [run_subdirs, hf, hs, hr]] at hp
                      rcases List.mem_cons.mp hp with h1 | h1
                      · rw [h1, hf]; simp
                      · exact ih p (by rw [hr]; exact h1)

/-- Reaching a name whose source is missing stops the loop there: the
outputs are exactly those of the error-free prefix, and the error names
the missing path. -/
theorem run_subdirs_missing (fs : String → Option SrcBase) (K : Finset Int)
    (kn : Bool) (post : List String) (bad : String) (hbad : fs bad = none) :
    ∀ (pre : List String), (run_subdirs fs K kn pre).2 = none →
      run_subdirs fs K kn (pre ++ bad :: post) =
        ((run_subdirs fs K kn pre).1, some (MainErr.sourceNotFound bad)) := by
  intro pre
  induction pre with
  | nil =>
      intro _
      simp [run_subdirs, hbad]
  | cons name pre ih =>
      intro hpre
      cases hf : fs name with
      | none => simp [run_subdirs, hf] at hpre
      | some src =>
          cases hs : subset_single_directory src K kn with
          | mk dst err =>
              cases err with
              | some e => simp [run_subdirs, hf, hs] at hpre
              | none =>
                  cases hr : run_subdirs fs K kn pre with
                  | mk outs err2 =>
                      cases hq : run_subdirs fs K kn (pre ++ bad :: post) with
                      | mk outs3 err3 =>
                          have hpre2 : (run_subdirs fs K kn pre).2 = none := by
                            rw [show (run_subdirs fs K kn (name :: pre)).2 =
                                  (run_subdirs fs K kn pre).2 by
                                simp [run_subdirs, hf, hs, hr]] at hpre
                            exact hpre
                          have hih := ih hpre2
                          rw [hq, hr] at hih
                          simp only [List.cons_append]
                          rw [show run_subdirs fs K kn
                                (name :: (pre ++ bad :: post)) =
                              ((name, dst) :: outs3, err3) by
                              simp [run_subdirs, hf, hs, hq]]
                          rw [show run_subdirs fs K kn (name :: pre) =
                              ((name, dst) :: outs, err2) by
                              simp [run_subdirs, hf, hs, hr]]
                          have h1 : outs3 = outs := congrArg Prod.fst hih
                          have h2 : err3 = some (MainErr.sourceNotFound bad) :=
                            congrArg Prod.snd hih
                          rw [h1, h2]

/-! ## Claim theorems about the main loop -/

/-- C5: when a requested subdirectory name has no source under the source
root, main fails with an error identifying that name, writes nothing for
that subdirectory, and processes nothing after it; outputs already
produced for earlier names remain. -/
theorem missing_subdir_aborts (fs : String → Option SrcBase) (ids : List Int)
    (dn : Bool) (pre post : List String) (bad : String)
    (hbad : fs bad = none)
    (hpre : (run_subdirs fs ids.toFinset (!dn) pre).2 = none) :
    main_run fs ⟨pre ++ bad :: post, ids, dn⟩ =
      ((run_subdirs fs ids.toFinset (!dn) pre).1,
       some (MainErr.sourceNotFound bad)) ∧
    ∀ p ∈ (main_run fs ⟨pre ++ bad :: post, ids, dn⟩).1, p.1 ≠ bad := by
  have hmain : main_run fs ⟨pre ++ bad :: post, ids, dn⟩ =
      ((run_subdirs fs ids.toFinset (!dn) pre).1,
       some (MainErr.sourceNotFound bad)) :=
    run_subdirs_missing fs ids.toFinset (!dn) post bad hbad pre hpre
  refine ⟨hmain, ?_⟩
  intro p hp
  intro hpb
  have := run_subdirs_names fs ids.toFinset (!dn) (pre ++ bad :: post) p hp
  rw [hpb, hbad] at this
  exact this rfl

/-- C5 witness: sources exist for "a" only; requesting a, b, c stops at b
with its error, keeps the output for a, and records nothing named b. -/
theorem missing_subdir_aborts_witness :
    (main_run (fun n => if n = "a" then some ⟨none, none⟩ else none)
        ⟨["a"] ++ "b" :: ["c"], [0], false⟩ =
      ((run_subdirs (fun n => if n = "a" then some ⟨none, none⟩ else none)
          ([0] : List Int).toFinset (!false) ["a"]).1,
       some (MainErr.sourceNotFound "b"))) ∧
    ∀ p ∈ (main_run (fun n => if n = "a" then some ⟨none, none⟩ else none)
        ⟨["a"] ++ "b" :: ["c"], [0], false⟩).1, p.1 ≠ "b" :=
  missing_subdir_aborts (fun n => if n = "a" then some ⟨none, none⟩ else none)
    [0] false ["a"] ["c"] "b" rfl rfl

/-! ## Idempotence of the destination tree -/

/-- The file a path holds after a batch of writes: the last write to that
path if any, the prior content otherwise. -/
theorem apply_writes_point (ws : List (String × Entry)) (s : Store) (p : String) :
    apply_writes s ws p =
      match List.lookup p ws.reverse with
      | some e => some e
      | none => s p := by
  induction ws using List.reverseRecOn generalizing s with
  | nil => rfl
  | append_singleton ws w ih =>
      rw [apply_writes, List.foldl_append]
      simp only [List.foldl_cons, List.foldl_nil, List.reverse_append,
        List.reverse_singleton, List.singleton_append, List.lookup]
      by_cases hpw : p = w.1
      · simp [write_file, hpw]
      · have hbeq : (p == w.1) = false := by simpa using hpw
        simp only [hbeq]
        have hL : write_file (List.foldl write_file s ws) w p =
            List.foldl write_file s ws p := by simp [write_file, hpw]
        rw [hL]
        exact ih s

/-- Applying the same batch of writes twice is the same as applying it
once. -/
theorem apply_writes_twice (ws : List (String × Entry)) (s : Store) :
    apply_writes (apply_writes s ws) ws = apply_writes s ws := by
  funext p
  rw [apply_writes_point, apply_writes_point]
  cases h : List.lookup p ws.reverse with
  | some e => rfl
  | none => rfl

/-- C8: rerunning the tool with identical arguments against an unchanged
source is idempotent: the second run issues the same file writes (the run
is a pure function of the source), and applying them again overwrites each
destination file with identical content, so the destination tree after two
runs equals the tree after one. -/
theorem rerun_idempotent (fs : String → Option SrcBase) (a : Args) (s : Store) :
    apply_writes (apply_writes s (run_writes (main_run fs a).1))
        (run_writes (main_run fs a).1) =
      apply_writes s (run_writes (main_run fs a).1) :=
  apply_writes_twice (run_writes (main_run fs a).1) s

end AxBench
